import Mathlib

/-!
Shallow embedding of the batched sink-dispatch components of the repository:
the redis batch processor (`src/unnamed/part_000`, package `redis`) and the
cache output writer (`src/internal/impl/pure/output_cache.go`).

External collaborators (the redis client, the bloblang interpolation
compiler, the resource registry, Go stdlib parsers such as
`time.ParseDuration` and `strconv.ParseFloat`, and the JSON codec of
`service.Message`) are modelled as function-valued parameters, matching the
spec's statement that they are consumed only through contracts.  Everything
else is translated statement by statement from the Go source.
-/

set_option autoImplicit false

namespace BenthosModel

/-- `isErr e` is `true` when the `Except` value is an error; mirrors Go's
`err != nil` checks. -/
def isErr {ε α : Type} : Except ε α → Bool
  | .error _ => true
  | .ok _ => false

/-! ## The retry pattern

Every external call of the redis processor is wrapped in the same loop
(`newRedisKeysOperator`, `newRedisSCardOperator`, `newRedisSAddOperator`,
`newRedisIncrByOperator`, `redisProc.execRaw`):

```
res, err := op()
for i := 0; i <= r.retries && err != nil; i++ {
    r.log.Errorf(...)
    <-time.After(r.retryPeriod)
    res, err = op()
}
```

`op` is indexed by the 0-based attempt number so that successive client
calls may return different results.  `retryLoop` returns the final
result together with the total number of invocations of `op` and the
number of `<-time.After(retryPeriod)` sleeps performed.  The loop body
runs for `i = 0, 1, ..., retries` as long as `err != nil`, so a fuel of
`retries + 1` iterations is exact. -/

def retryLoopGo {α : Type} (op : Nat → Except String α) (retries : Nat) :
    Nat → Nat → Except String α → Nat → Nat → Except String α × Nat × Nat
  | 0, _, cur, calls, sleeps => (cur, calls, sleeps)
  | fuel + 1, i, cur, calls, sleeps =>
    if i ≤ retries ∧ isErr cur then
      retryLoopGo op retries fuel (i + 1) (op calls) (calls + 1) (sleeps + 1)
    else
      (cur, calls, sleeps)

/-- Embedding of the retry loop shared by the five call sites of the redis
processor; result, invocation count, sleep count. -/
def retryLoop {α : Type} (op : Nat → Except String α) (retries : Nat) :
    Except String α × Nat × Nat :=
  retryLoopGo op retries (retries + 1) 0 (op 0) 1 0

/-! ## Redis batch processor (`src/unnamed/part_000`)

Message contents: a `service.Message` holds either raw bytes or a
structured value.  Structured values are modelled by `RStruct`;
`json.Number` values produced by mappings are kept as their raw string
(`RStruct.num`), and the `Float64` fallback of the normalisation step is
kept symbolic (`RStruct.float` carries the raw string, with an
environment predicate standing for `strconv.ParseFloat` success). -/

inductive RStruct where
  | null : RStruct
  | str (s : String) : RStruct
  | int (n : Int) : RStruct
  | num (raw : String) : RStruct
  | float (raw : String) : RStruct
  | bool (b : Bool) : RStruct
  | arr (xs : List RStruct) : RStruct

inductive MContent where
  | bytes (s : String) : MContent
  | structured (v : RStruct) : MContent

/-- A `service.Message`: content plus the attachable item error
(`SetError` / `GetError`). -/
structure Msg where
  content : MContent
  errMsg : Option String

def dMsg : Msg := ⟨.bytes "", none⟩

/-- `parseDigits cs` parses a non-empty all-digit string, as the digit part
of `strconv.Atoi` / `strconv.ParseInt` does. -/
def parseDigits (cs : List Char) : Option Nat :=
  if cs.isEmpty then none
  else
    cs.foldl
      (fun acc c =>
        match acc with
        | none => none
        | some n => if c.isDigit then some (n * 10 + (c.toNat - 48)) else none)
      (some 0)

/-- Embedding of Go `strconv.Atoi` (= `strconv.ParseInt(s, 10, 64)` on a
64-bit platform): optional sign, decimal digits, 64-bit range check. -/
def goAtoi (s : String) : Except String Int :=
  let p : Bool × List Char :=
    match s.toList with
    | '-' :: rest => (true, rest)
    | '+' :: rest => (false, rest)
    | rest => (false, rest)
  match parseDigits p.2 with
  | none => .error ("invalid syntax: " ++ s)
  | some n =>
    let v : Int := if p.1 then -(n : Int) else (n : Int)
    if v < -(2 ^ 63) ∨ 2 ^ 63 ≤ v then .error ("value out of range: " ++ s)
    else .ok v

/-- Argument normalisation of `redisProc.execRaw`: a `json.Number` is
converted with `n.Int64()` (embedded by `goAtoi`), falling back to
`n.Float64()` (success given by the external predicate `floatOk`) and
finally to `n.String()` (the raw string).  Every other value is kept. -/
def normNumber (floatOk : String → Bool) : RStruct → RStruct
  | .num raw =>
    match goAtoi raw with
    | .ok n => .int n
    | .error _ => if floatOk raw then .float raw else .str raw
  | v => v

/-- The redis client, attempt-indexed so that successive calls of the retry
loop may observe different results.  One field per client method used by
the processor. -/
structure RedisClient where
  keysRes : Nat → String → Except String (List String)
  scardRes : Nat → String → Except String Int
  saddRes : Nat → String → String → Except String Int
  incrbyRes : Nat → String → Int → Except String Int
  doRes : Nat → List RStruct → Except String RStruct

/-- External message-codec contract of `service.Message`: `marshal` is the
JSON encoding used by `AsBytes` on structured content, `parseJSON` the
decoding used by `AsStructured` on raw bytes. -/
structure MsgEnv where
  marshal : RStruct → Except String String
  parseJSON : String → Except String RStruct

/-- `service.Message.AsBytes`: raw bytes are returned as-is, structured
content is marshalled. -/
def asBytes (env : MsgEnv) : MContent → Except String String
  | .bytes s => .ok s
  | .structured v => env.marshal v

/-- `service.Message.AsStructured`: structured content is returned as-is,
raw bytes are parsed as JSON. -/
def asStructured (env : MsgEnv) : MContent → Except String RStruct
  | .bytes s => env.parseJSON s
  | .structured v => .ok v

/-- `newRedisKeysOperator`: `client.Keys(key)` under the retry loop; on
success the message content becomes the array of key strings. -/
def keysOp (retries : Nat) (cl : RedisClient) (key : String) (part : Msg) :
    Except String Msg :=
  match (retryLoop (fun k => cl.keysRes k key) retries).1 with
  | .error e => .error e
  | .ok res => .ok { part with content := .structured (.arr (res.map .str)) }

/-- `newRedisSCardOperator`: `client.SCard(key)` under the retry loop; on
success the message content becomes the decimal bytes of the count. -/
def scardOp (retries : Nat) (cl : RedisClient) (key : String) (part : Msg) :
    Except String Msg :=
  match (retryLoop (fun k => cl.scardRes k key) retries).1 with
  | .error e => .error e
  | .ok res => .ok { part with content := .bytes (toString res) }

/-- `newRedisSAddOperator`: the message bytes are the member to add;
`client.SAdd(key, bytes)` under the retry loop. -/
def saddOp (env : MsgEnv) (retries : Nat) (cl : RedisClient) (key : String) (part : Msg) :
    Except String Msg :=
  match asBytes env part.content with
  | .error e => .error e
  | .ok mBytes =>
    match (retryLoop (fun k => cl.saddRes k key mBytes) retries).1 with
    | .error e => .error e
    | .ok res => .ok { part with content := .bytes (toString res) }

/-- `newRedisIncrByOperator`: the message bytes are parsed with
`strconv.Atoi`; `client.IncrBy(key, value)` under the retry loop. -/
def incrbyOp (env : MsgEnv) (retries : Nat) (cl : RedisClient) (key : String) (part : Msg) :
    Except String Msg :=
  match asBytes env part.content with
  | .error e => .error e
  | .ok mBytes =>
    match goAtoi mBytes with
    | .error e => .error e
    | .ok valueInt =>
      match (retryLoop (fun k => cl.incrbyRes k key valueInt) retries).1 with
      | .error e => .error e
      | .ok res => .ok { part with content := .bytes (toString res) }

inductive OpKind where
  | keys : OpKind
  | sadd : OpKind
  | scard : OpKind
  | incrby : OpKind
  deriving Repr, DecidableEq

/-- `getRedisOperator`. -/
def getRedisOperator (opStr : String) : Except String OpKind :=
  match opStr with
  | "keys" => .ok .keys
  | "sadd" => .ok .sadd
  | "scard" => .ok .scard
  | "incrby" => .ok .incrby
  | _ => .error ("operator not recognised: " ++ opStr)

def applyOperator (env : MsgEnv) (op : OpKind) (retries : Nat) (cl : RedisClient)
    (key : String) (part : Msg) : Except String Msg :=
  match op with
  | .keys => keysOp retries cl key part
  | .sadd => saddOp env retries cl key part
  | .scard => scardOp retries cl key part
  | .incrby => incrbyOp env retries cl key part

/-- Static processor state (`redisProc`) together with the per-batch
interpolation/mapping contract: `keyInterp`/`commandInterp` stand for
`inBatch.InterpolatedString(index, ...)` and `argsQuery` for
`inBatch.BloblangQuery(index, argsMapping)`, all resolved against the
(unmutated) input batch. -/
structure ProcCfg where
  retries : Nat
  operator : Option OpKind
  keyInterp : Nat → String
  commandInterp : Nat → String
  argsQuery : Nat → Except String Msg
  floatOk : String → Bool

/-- `redisProc.execRaw`: args mapping → `AsStructured` → array check →
`json.Number` normalisation → prepend interpolated command →
`client.DoContext` under the retry loop → `SetStructured(res)`. -/
def execRaw (env : MsgEnv) (cfg : ProcCfg) (cl : RedisClient) (index : Nat) (msg : Msg) :
    Except String Msg :=
  match cfg.argsQuery index with
  | .error e => .error ("args mapping failed: " ++ e)
  | .ok resMsg =>
    match asStructured env resMsg.content with
    | .error e => .error e
    | .ok iargs =>
      match iargs with
      | .arr args0 =>
        let args := args0.map (normNumber cfg.floatOk)
        let command := cfg.commandInterp index
        let fullArgs := RStruct.str command :: args
        match (retryLoop (fun k => cl.doRes k fullArgs) cfg.retries).1 with
        | .error e => .error e
        | .ok res => .ok { msg with content := .structured res }
      | _ => .error "mapping returned non-array result"

/-- The per-index action of the `ProcessBatch` loop, as an `Except`: the
fixed-operator branch (with its `redis operator failed: %w` wrapping) when
`r.operator != nil`, the generic-command branch otherwise. -/
def itemResult (env : MsgEnv) (cfg : ProcCfg) (cl : RedisClient) (index : Nat) (part : Msg) :
    Except String Msg :=
  match cfg.operator with
  | some op =>
    match applyOperator env op cfg.retries cl (cfg.keyInterp index) part with
    | .error e => .error ("redis operator failed: " ++ e)
    | .ok part' => .ok part'
  | none => execRaw env cfg cl index part

/-- One iteration of the `ProcessBatch` loop body: on failure the item
error is attached to the (copied) part, on success the mutated part is
kept. -/
def itemStep (env : MsgEnv) (cfg : ProcCfg) (cl : RedisClient) (index : Nat) (part : Msg) :
    Msg :=
  match itemResult env cfg cl index part with
  | .error e => { part with errMsg := some e }
  | .ok part' => part'

/-- The `for index, part := range newMsg` loop of `ProcessBatch`. -/
def processParts (env : MsgEnv) (cfg : ProcCfg) (cl : RedisClient) :
    Nat → List Msg → List Msg
  | _, [] => []
  | index, part :: rest =>
    itemStep env cfg cl index part :: processParts env cfg cl (index + 1) rest

/-- `redisProc.ProcessBatch`: copy the input, run the per-item loop, return
the single resulting batch with a nil batch-level error. -/
def processBatch (env : MsgEnv) (cfg : ProcCfg) (cl : RedisClient) (inBatch : List Msg) :
    List (List Msg) × Option String :=
  ([processParts env cfg cl 0 inBatch], none)

/-! ## Cache output writer (`src/internal/impl/pure/output_cache.go`)

Message parts only contribute their raw bytes (`p.Get()`) here, so a part
is modelled by its content string.  `field.Expression.String(i, msg)` is a
function of the batch and the index (the compiled interpolation is an
external collaborator); `time.ParseDuration` is an external parser mapped
to an optional nanosecond count; the cache registry and the `cache.V1`
calls are environment functions, and the external calls actually performed
are collected in a trace of `CacheCall`s. -/

structure CPart where
  content : String
  deriving Repr, DecidableEq

def dPart : CPart := ⟨""⟩

/-- A `cache.TTLItem`: value bytes plus optional TTL (nanoseconds). -/
structure TTLItem where
  value : String
  ttl : Option Int
  deriving Repr, DecidableEq

/-- The external cache calls a dispatch can perform. -/
inductive CacheCall where
  | set (key : String) (value : String) (ttl : Option Int) : CacheCall
  | setMulti (items : List (String × TTLItem)) : CacheCall
  deriving Repr, DecidableEq

/-- The constructed `CacheWriter`: target name and the two compiled
expressions. -/
structure CacheWriter where
  target : String
  key : List CPart → Nat → String
  ttl : List CPart → Nat → String

/-- Dispatch-time environment: resource lookup of `AccessCache`,
`time.ParseDuration`, and the results of the `cache.V1` calls. -/
structure CacheEnv where
  hasCache : String → Bool
  parseDuration : String → Option Int
  setRes : String → String → Option Int → Option String
  setMultiRes : List (String × TTLItem) → Option String

/-- Whether the association list already holds an entry for key `k`. -/
def hasKey (k : String) : List (String × TTLItem) → Bool
  | [] => false
  | p :: rest => p.1 = k || hasKey k rest

/-- Go map assignment `items[k] = v`: replace the entry when the key is
present, append it otherwise. -/
def upsert (m : List (String × TTLItem)) (k : String) (v : TTLItem) :
    List (String × TTLItem) :=
  if hasKey k m then
    m.map (fun p => if p.1 = k then (k, v) else p)
  else
    m ++ [(k, v)]

/-- Go map lookup `items[k]`. -/
def lookupItem (k : String) : List (String × TTLItem) → Option TTLItem
  | [] => none
  | p :: rest => if p.1 = k then some p.2 else lookupItem k rest

/-- The optional TTL computed for index `i`: absent when the resolved
string is empty, otherwise the parsed duration (when it parses). -/
def ttlOf (env : CacheEnv) (c : CacheWriter) (msg : List CPart) (i : Nat) : Option Int :=
  if c.ttl msg i = "" then none else env.parseDuration (c.ttl msg i)

/-- Index `i` contributes a TTL without a parse failure. -/
def ttlOk (env : CacheEnv) (c : CacheWriter) (msg : List CPart) (i : Nat) : Prop :=
  c.ttl msg i = "" ∨ (env.parseDuration (c.ttl msg i)).isSome

instance (env : CacheEnv) (c : CacheWriter) (msg : List CPart) (i : Nat) :
    Decidable (ttlOk env c msg i) := by
  unfold ttlOk; infer_instance

/-- The `msg.Iter` closure of `CacheWriter.writeMulti`: per index, resolve
the TTL (aborting the iteration on a parse failure) and assign
`items[key] = TTLItem{Value, TTL}`. -/
def iterGo (env : CacheEnv) (c : CacheWriter) (msg : List CPart) :
    List Nat → List (String × TTLItem) → Except String (List (String × TTLItem))
  | [], acc => .ok acc
  | i :: rest, acc =>
    if c.ttl msg i = "" then
      iterGo env c msg rest (upsert acc (c.key msg i) ⟨(msg.getD i dPart).content, none⟩)
    else
      match env.parseDuration (c.ttl msg i) with
      | none => .error "ttl field: invalid duration"
      | some t =>
        iterGo env c msg rest (upsert acc (c.key msg i) ⟨(msg.getD i dPart).content, some t⟩)

/-- The pure accumulation of `iterGo` when every TTL resolves cleanly. -/
def buildItems (env : CacheEnv) (c : CacheWriter) (msg : List CPart) :
    List Nat → List (String × TTLItem) → List (String × TTLItem)
  | [], acc => acc
  | i :: rest, acc =>
    buildItems env c msg rest
      (upsert acc (c.key msg i) ⟨(msg.getD i dPart).content, ttlOf env c msg i⟩)

/-- `CacheWriter.writeMulti`: under `AccessCache`, build the item map with
`msg.Iter` and call `SetMulti` once; the trace of external cache calls is
returned alongside the dispatch error. -/
def writeMulti (env : CacheEnv) (c : CacheWriter) (msg : List CPart) :
    List CacheCall × Option String :=
  if env.hasCache c.target then
    match iterGo env c msg (List.range msg.length) [] with
    | .error e => ([], some e)
    | .ok items => ([.setMulti items], env.setMultiRes items)
  else
    ([], some ("unable to access cache target " ++ c.target))

/-- `CacheWriter.WriteWithContext`: batches of more than one message go
through `writeMulti`; a single message resolves key/ttl at index 0 and
performs one `Set`. -/
def writeWithContext (env : CacheEnv) (c : CacheWriter) (msg : List CPart) :
    List CacheCall × Option String :=
  if msg.length > 1 then writeMulti env c msg
  else if env.hasCache c.target then
    if c.ttl msg 0 = "" then
      ([.set (c.key msg 0) (msg.getD 0 dPart).content none],
        env.setRes (c.key msg 0) (msg.getD 0 dPart).content none)
    else
      match env.parseDuration (c.ttl msg 0) with
      | none => ([], some "ttl field: invalid duration")
      | some t =>
        ([.set (c.key msg 0) (msg.getD 0 dPart).content (some t)],
          env.setRes (c.key msg 0) (msg.getD 0 dPart).content (some t))
  else
    ([], some ("unable to access cache target " ++ c.target))

/-- Construction-time environment of `NewCacheWriter`:
`BloblEnvironment().NewField` and `mgr.ProbeCache`. -/
structure ConstructEnv where
  newField : String → Except String (List CPart → Nat → String)
  probeCache : String → Bool

/-- The cache output configuration fields used by `NewCacheWriter`. -/
structure CacheConfig where
  target : String
  keyStr : String
  ttlStr : String

/-- `NewCacheWriter`: compile the key expression, compile the ttl
expression, probe the target cache resource; fail fast on the first error.
The second component records the template strings passed to `NewField`, in
order. -/
def newCacheWriter (env : ConstructEnv) (conf : CacheConfig) :
    Except String CacheWriter × List String :=
  match env.newField conf.keyStr with
  | .error e => (.error ("failed to parse key expression: " ++ e), [conf.keyStr])
  | .ok key =>
    match env.newField conf.ttlStr with
    | .error e => (.error ("failed to parse ttl expression: " ++ e), [conf.keyStr, conf.ttlStr])
    | .ok ttl =>
      if env.probeCache conf.target then
        (.ok ⟨conf.target, key, ttl⟩, [conf.keyStr, conf.ttlStr])
      else
        (.error ("cache resource not found: " ++ conf.target), [conf.keyStr, conf.ttlStr])

/-! ### Map and iteration lemmas for the cache writer -/

/-- Index `i` has a non-empty TTL string that fails duration parsing. -/
def ttlBad (env : CacheEnv) (c : CacheWriter) (msg : List CPart) (i : Nat) : Prop :=
  c.ttl msg i ≠ "" ∧ env.parseDuration (c.ttl msg i) = none

instance (env : CacheEnv) (c : CacheWriter) (msg : List CPart) (i : Nat) :
    Decidable (ttlBad env c msg i) := by
  unfold ttlBad; infer_instance

/-- A context-aware client call (`client.DoContext(ctx, ...)`): at call
time, a cancelled context makes the client return the context error;
otherwise the client's own result is returned.  The retry wrapper itself
never consults `cancelled`: in the source the inter-attempt sleep is
`<-time.After(r.retryPeriod)`, with no `select` on `ctx.Done()`. -/
def withCancel {α : Type} (cancelled : Nat → Bool) (clientRes : Nat → Except String α)
    (k : Nat) : Except String α :=
  if cancelled k then .error "context canceled" else clientRes k

/-! ## Concrete sample environments used by the witnesses -/

def wMsgEnv : MsgEnv :=
  ⟨fun _ => .error "marshal unsupported", fun _ => .error "parse unsupported"⟩

def wClient : RedisClient where
  keysRes := fun _ _ => .ok []
  scardRes := fun _ _ => .ok 0
  saddRes := fun _ _ _ => .ok 1
  incrbyRes := fun _ _ n => .ok n
  doRes := fun _ _ => .ok .null

def wCfgIncr : ProcCfg where
  retries := 3
  operator := some .incrby
  keyInterp := fun _ => "total"
  commandInterp := fun _ => ""
  argsQuery := fun _ => .error "no mapping"
  floatOk := fun _ => false

def wCfgCmd : ProcCfg where
  retries := 2
  operator := none
  keyInterp := fun _ => ""
  commandInterp := fun _ => "scard"
  argsQuery := fun i =>
    if i = 0 then .error "boom" else .ok ⟨.structured (.arr [.num "42"]), none⟩
  floatOk := fun _ => false

def wBatch : List Msg := [⟨.bytes "5", none⟩, ⟨.bytes "x", none⟩]

/-! ## Claims about the cache output writer -/

def wCacheEnv : CacheEnv where
  hasCache := fun t => t = "foo"
  parseDuration := fun s => if s = "60s" then some 60000000000 else none
  setRes := fun _ _ _ => none
  setMultiRes := fun _ => none

def wWriterEmpty : CacheWriter where
  target := "foo"
  key := fun _ i => "k" ++ toString i
  ttl := fun _ _ => ""

def wWriterDup : CacheWriter where
  target := "foo"
  key := fun _ _ => "same"
  ttl := fun _ _ => ""

def wWriterBad : CacheWriter where
  target := "foo"
  key := fun _ i => "k" ++ toString i
  ttl := fun _ i => if i = 0 then "60s" else "notaduration"

def wB1 : List CPart := [⟨"payload"⟩]

def wB2 : List CPart := [⟨"a"⟩, ⟨"b"⟩]

def wB1bad : List CPart := [⟨"payload"⟩]

def wWriterBad1 : CacheWriter where
  target := "foo"
  key := fun _ i => "k" ++ toString i
  ttl := fun _ _ => "notaduration"

def wB2bad : List CPart := [⟨"a"⟩, ⟨"b"⟩]

def wConsEnv : ConstructEnv where
  newField := fun s => if s = "%bad%" then .error "expected end of input" else .ok (fun _ _ => s)
  probeCache := fun t => t = "foo"

def wConsConf : CacheConfig := ⟨"foo", "doc.id", "60s"⟩

@[simp] theorem isErr_error {ε α : Type} (e : ε) : isErr (ε := ε) (α := α) (.error e) = true := rfl

@[simp] theorem isErr_ok {ε α : Type} (a : α) : isErr (ε := ε) (α := α) (.ok a) = false := rfl

/-- If the initial attempt succeeds the loop guard fails at once: one
invocation, no sleep. -/
theorem retryLoop_first_ok {α : Type} (op : Nat → Except String α) (retries : Nat) (a : α)
    (h : op 0 = .ok a) : retryLoop op retries = (.ok a, 1, 0) := by
  unfold retryLoop
  cases retries <;> simp [retryLoopGo, h]

theorem retryLoopGo_all_fail {α : Type} (op : Nat → Except String α) (retries : Nat) :
    ∀ fuel i, (∀ k, isErr (op k) = true) → i + fuel = retries + 1 →
      retryLoopGo op retries fuel i (op i) (i + 1) i =
        (op (retries + 1), retries + 2, retries + 1) := by
  intro fuel
  induction fuel with
  | zero =>
    intro i hall hi
    simp only [Nat.add_zero] at hi
    subst hi
    rfl
  | succ n ih =>
    intro i hall hi
    have hle : i ≤ retries := by omega
    simp only [retryLoopGo, hall (i + 1), hall i, hle, and_true, if_pos, true_and, if_true]
    have := ih (i + 1) hall (by omega)
    simpa using this

/-- If every attempt fails, the loop performs all `retries + 1` retry
iterations: `retries + 2` invocations and `retries + 1` sleeps, returning
the result of the final attempt. -/
theorem retryLoop_all_fail {α : Type} (op : Nat → Except String α) (retries : Nat)
    (hall : ∀ k, isErr (op k) = true) :
    retryLoop op retries = (op (retries + 1), retries + 2, retries + 1) := by
  unfold retryLoop
  have h0 : (0 : Nat) + (retries + 1) = retries + 1 := by omega
  have := retryLoopGo_all_fail op retries (retries + 1) 0 hall h0
  simpa using this

@[simp] theorem processParts_nil (env : MsgEnv) (cfg : ProcCfg) (cl : RedisClient) (i : Nat) :
    processParts env cfg cl i [] = [] := rfl

@[simp] theorem processParts_cons (env : MsgEnv) (cfg : ProcCfg) (cl : RedisClient) (i : Nat)
    (part : Msg) (rest : List Msg) :
    processParts env cfg cl i (part :: rest) =
      itemStep env cfg cl i part :: processParts env cfg cl (i + 1) rest := rfl

theorem processParts_length (env : MsgEnv) (cfg : ProcCfg) (cl : RedisClient) :
    ∀ (l : List Msg) (i : Nat), (processParts env cfg cl i l).length = l.length := by
  intro l
  induction l with
  | nil => intro i; rfl
  | cons part rest ih => intro i; simp [ih]

theorem processParts_getD (env : MsgEnv) (cfg : ProcCfg) (cl : RedisClient) :
    ∀ (l : List Msg) (i j : Nat), j < l.length →
      (processParts env cfg cl i l).getD j dMsg = itemStep env cfg cl (i + j) (l.getD j dMsg) := by
  intro l
  induction l with
  | nil => intro i j hj; simp at hj
  | cons part rest ih =>
    intro i j hj
    cases j with
    | zero => simp
    | succ j' =>
      have hj' : j' < rest.length := by simpa using hj
      have := ih (i + 1) j' hj'
      simpa [Nat.add_assoc, Nat.add_comm, Nat.add_left_comm] using this

theorem hasKey_nil (k : String) : hasKey k [] = false := rfl

theorem hasKey_cons (k : String) (p : String × TTLItem) (rest : List (String × TTLItem)) :
    hasKey k (p :: rest) = (decide (p.1 = k) || hasKey k rest) := rfl

theorem hasKey_append (k : String) (m l : List (String × TTLItem)) :
    hasKey k (m ++ l) = (hasKey k m || hasKey k l) := by
  induction m with
  | nil => simp [hasKey]
  | cons p rest ih => simp [hasKey, ih, Bool.or_assoc]

theorem hasKey_false_lookup_none (k : String) (m : List (String × TTLItem))
    (h : hasKey k m = false) : lookupItem k m = none := by
  induction m with
  | nil => rfl
  | cons p rest ih =>
    rw [hasKey_cons] at h
    rcases Bool.or_eq_false_iff.mp h with ⟨h1, h2⟩
    have hp : ¬p.1 = k := by simpa using h1
    simp [lookupItem, hp, ih h2]

theorem lookupItem_append_of_none (k : String) (m l : List (String × TTLItem))
    (h : lookupItem k m = none) : lookupItem k (m ++ l) = lookupItem k l := by
  induction m with
  | nil => rfl
  | cons p rest ih =>
    by_cases hp : p.1 = k
    · simp [lookupItem, hp] at h
    · simp only [List.cons_append, lookupItem, hp, if_false] at h ⊢
      exact ih h

theorem lookupItem_map_replace_self (m : List (String × TTLItem)) (k : String) (v : TTLItem)
    (h : hasKey k m = true) :
    lookupItem k (m.map (fun p => if p.1 = k then (k, v) else p)) = some v := by
  induction m with
  | nil => simp [hasKey] at h
  | cons p rest ih =>
    by_cases hp : p.1 = k
    · simp [lookupItem, hp]
    · rw [hasKey_cons] at h
      have h2 : hasKey k rest = true := by
        rcases Bool.or_eq_true_iff.mp h with h1 | h2
        · exact absurd (of_decide_eq_true h1) hp
        · exact h2
      simp [lookupItem, hp, ih h2]

theorem lookupItem_map_replace_ne (m : List (String × TTLItem)) (k k' : String) (v : TTLItem)
    (h : k' ≠ k) :
    lookupItem k' (m.map (fun p => if p.1 = k then (k, v) else p)) = lookupItem k' m := by
  induction m with
  | nil => rfl
  | cons p rest ih =>
    by_cases hp : p.1 = k
    · have hpk : ¬p.1 = k' := by
        intro hc; exact h (by rw [← hc, hp])
      have hkk : ¬k = k' := fun hc => h hc.symm
      simp [lookupItem, hp, hpk, hkk, ih]
    · by_cases hpk : p.1 = k'
      · simp [lookupItem, hp, hpk, h]
      · simp [lookupItem, hp, hpk, ih]

theorem lookupItem_upsert_self (m : List (String × TTLItem)) (k : String) (v : TTLItem) :
    lookupItem k (upsert m k v) = some v := by
  unfold upsert
  by_cases h : hasKey k m = true
  · simp only [h, if_true]
    exact lookupItem_map_replace_self m k v h
  · have hf : hasKey k m = false := by simpa using h
    simp only [hf, Bool.false_eq_true, if_false]
    rw [lookupItem_append_of_none k m _ (hasKey_false_lookup_none k m hf)]
    simp [lookupItem]

theorem lookupItem_append_single_ne (m : List (String × TTLItem)) (k k' : String) (v : TTLItem)
    (h : k' ≠ k) : lookupItem k' (m ++ [(k, v)]) = lookupItem k' m := by
  induction m with
  | nil =>
    have hkk : ¬k = k' := fun hc => h hc.symm
    simp [lookupItem, hkk]
  | cons p rest ih =>
    by_cases hpk : p.1 = k'
    · simp [lookupItem, hpk]
    · simp only [List.cons_append, lookupItem, hpk, if_false]
      exact ih

theorem lookupItem_upsert_ne (m : List (String × TTLItem)) (k k' : String) (v : TTLItem)
    (h : k' ≠ k) : lookupItem k' (upsert m k v) = lookupItem k' m := by
  unfold upsert
  by_cases hm : hasKey k m = true
  · simp only [hm, if_true]
    exact lookupItem_map_replace_ne m k k' v h
  · have hf : hasKey k m = false := by simpa using hm
    simp only [hf, Bool.false_eq_true, if_false]
    exact lookupItem_append_single_ne m k k' v h

theorem length_upsert_le (m : List (String × TTLItem)) (k : String) (v : TTLItem) :
    (upsert m k v).length ≤ m.length + 1 := by
  unfold upsert
  by_cases hm : hasKey k m = true <;> simp [hm]

theorem length_upsert_mem (m : List (String × TTLItem)) (k : String) (v : TTLItem)
    (h : hasKey k m = true) : (upsert m k v).length = m.length := by
  unfold upsert
  simp [h]

theorem hasKey_map_replace_self (m : List (String × TTLItem)) (k : String) (v : TTLItem)
    (h : hasKey k m = true) :
    hasKey k (m.map (fun p => if p.1 = k then (k, v) else p)) = true := by
  induction m with
  | nil => simp [hasKey] at h
  | cons p rest ih =>
    by_cases hp : p.1 = k
    · simp [hasKey_cons, hp]
    · rw [hasKey_cons] at h
      have h2 : hasKey k rest = true := by
        rcases Bool.or_eq_true_iff.mp h with h1 | h2
        · exact absurd (of_decide_eq_true h1) hp
        · exact h2
      simp [hasKey_cons, hp, ih h2]

theorem hasKey_map_replace_ne (m : List (String × TTLItem)) (k k' : String) (v : TTLItem)
    (h : k' ≠ k) :
    hasKey k' (m.map (fun p => if p.1 = k then (k, v) else p)) = hasKey k' m := by
  induction m with
  | nil => rfl
  | cons p rest ih =>
    by_cases hp : p.1 = k
    · have hpk : ¬p.1 = k' := by
        intro hc; exact h (by rw [← hc, hp])
      have hkk : ¬k = k' := fun hc => h hc.symm
      simp [hasKey_cons, hp, hpk, hkk, ih]
    · simp [hasKey_cons, hp, ih]

theorem hasKey_upsert_self (m : List (String × TTLItem)) (k : String) (v : TTLItem) :
    hasKey k (upsert m k v) = true := by
  unfold upsert
  by_cases hm : hasKey k m = true
  · simp only [hm, if_true]
    exact hasKey_map_replace_self m k v hm
  · have hf : hasKey k m = false := by simpa using hm
    simp [hf, hasKey_append, hasKey_cons]

theorem hasKey_upsert_mono (m : List (String × TTLItem)) (k k' : String) (v : TTLItem)
    (h : hasKey k' m = true) : hasKey k' (upsert m k v) = true := by
  by_cases hkk : k' = k
  · subst hkk; exact hasKey_upsert_self m k' v
  · unfold upsert
    by_cases hm : hasKey k m = true
    · simp only [hm, if_true]
      rw [hasKey_map_replace_ne m k k' v hkk]
      exact h
    · have hf : hasKey k m = false := by simpa using hm
      simp [hf, hasKey_append, h]

theorem buildItems_append (env : CacheEnv) (c : CacheWriter) (msg : List CPart)
    (l1 l2 : List Nat) (acc : List (String × TTLItem)) :
    buildItems env c msg (l1 ++ l2) acc = buildItems env c msg l2 (buildItems env c msg l1 acc) := by
  induction l1 generalizing acc with
  | nil => rfl
  | cons i rest ih => simp [buildItems, ih]

theorem buildItems_single (env : CacheEnv) (c : CacheWriter) (msg : List CPart)
    (i : Nat) (acc : List (String × TTLItem)) :
    buildItems env c msg [i] acc =
      upsert acc (c.key msg i) ⟨(msg.getD i dPart).content, ttlOf env c msg i⟩ := rfl

theorem buildItems_length_le (env : CacheEnv) (c : CacheWriter) (msg : List CPart) :
    ∀ (ts : List Nat) (acc : List (String × TTLItem)),
      (buildItems env c msg ts acc).length ≤ acc.length + ts.length := by
  intro ts
  induction ts with
  | nil => intro acc; simp [buildItems]
  | cons i rest ih =>
    intro acc
    have h1 := ih (upsert acc (c.key msg i) ⟨(msg.getD i dPart).content, ttlOf env c msg i⟩)
    have h2 := length_upsert_le acc (c.key msg i) ⟨(msg.getD i dPart).content, ttlOf env c msg i⟩
    simp only [buildItems, List.length_cons]
    omega

theorem buildItems_hasKey_mono (env : CacheEnv) (c : CacheWriter) (msg : List CPart) (k : String) :
    ∀ (ts : List Nat) (acc : List (String × TTLItem)),
      hasKey k acc = true → hasKey k (buildItems env c msg ts acc) = true := by
  intro ts
  induction ts with
  | nil => intro acc h; simpa [buildItems] using h
  | cons i rest ih =>
    intro acc h
    exact ih _ (hasKey_upsert_mono _ _ _ _ h)

theorem buildItems_key_present (env : CacheEnv) (c : CacheWriter) (msg : List CPart) :
    ∀ (ts : List Nat) (acc : List (String × TTLItem)) (i : Nat), i ∈ ts →
      hasKey (c.key msg i) (buildItems env c msg ts acc) = true := by
  intro ts
  induction ts with
  | nil => intro acc i hi; simp at hi
  | cons j rest ih =>
    intro acc i hi
    rcases List.mem_cons.mp hi with hij | hmem
    · subst hij
      exact buildItems_hasKey_mono env c msg _ rest _ (hasKey_upsert_self _ _ _)
    · exact ih _ i hmem

theorem buildItems_range_len_lt (env : CacheEnv) (c : CacheWriter) (msg : List CPart)
    (i j : Nat) (hij : i < j) (hkey : c.key msg i = c.key msg j) :
    ∀ n, j < n → (buildItems env c msg (List.range n) []).length < n := by
  intro n
  induction n with
  | zero => intro h; omega
  | succ m ih =>
    intro hjn
    rw [List.range_succ, buildItems_append, buildItems_single]
    by_cases hjm : j = m
    · subst hjm
      have hpres : hasKey (c.key msg j) (buildItems env c msg (List.range j) []) = true := by
        rw [← hkey]
        exact buildItems_key_present env c msg (List.range j) [] i (List.mem_range.mpr hij)
      rw [length_upsert_mem _ _ _ hpres]
      have := buildItems_length_le env c msg (List.range j) []
      simp only [List.length_nil, List.length_range, Nat.zero_add] at this
      omega
    · have hjm' : j < m := by omega
      have hlt := ih hjm'
      have hle := length_upsert_le (buildItems env c msg (List.range m) [])
        (c.key msg m) ⟨(msg.getD m dPart).content, ttlOf env c msg m⟩
      omega

theorem buildItems_range_lookup_last (env : CacheEnv) (c : CacheWriter) (msg : List CPart)
    (j : Nat) :
    ∀ n, j < n → (∀ t, j < t → t < n → c.key msg t ≠ c.key msg j) →
      lookupItem (c.key msg j) (buildItems env c msg (List.range n) []) =
        some ⟨(msg.getD j dPart).content, ttlOf env c msg j⟩ := by
  intro n
  induction n with
  | zero => intro h; omega
  | succ m ih =>
    intro hjn hlast
    rw [List.range_succ, buildItems_append, buildItems_single]
    by_cases hjm : j = m
    · subst hjm
      exact lookupItem_upsert_self _ _ _
    · have hjm' : j < m := by omega
      have hne : c.key msg j ≠ c.key msg m := fun hc =>
        hlast m hjm' (Nat.lt_succ_self m) hc.symm
      rw [lookupItem_upsert_ne _ _ _ _ hne]
      exact ih hjm' (fun t ht htm => hlast t ht (Nat.lt_succ_of_lt htm))

theorem iterGo_ok (env : CacheEnv) (c : CacheWriter) (msg : List CPart) :
    ∀ (ts : List Nat) (acc : List (String × TTLItem)),
      (∀ i ∈ ts, ttlOk env c msg i) →
      iterGo env c msg ts acc = .ok (buildItems env c msg ts acc) := by
  intro ts
  induction ts with
  | nil => intro acc _; rfl
  | cons i rest ih =>
    intro acc hok
    have hi := hok i (List.mem_cons_self i rest)
    have hrest : ∀ t ∈ rest, ttlOk env c msg t := fun t ht => hok t (List.mem_cons_of_mem i ht)
    by_cases he : c.ttl msg i = ""
    · simp only [iterGo, buildItems, he, if_true]
      rw [ih _ hrest]
      simp [ttlOf, he]
    · rcases hi with he' | hsome
      · exact absurd he' he
      · rcases Option.isSome_iff_exists.mp hsome with ⟨t, ht⟩
        simp only [iterGo, buildItems, he, if_false, ht]
        rw [ih _ hrest]
        simp [ttlOf, he, ht]

theorem iterGo_bad (env : CacheEnv) (c : CacheWriter) (msg : List CPart) :
    ∀ (ts : List Nat) (acc : List (String × TTLItem)),
      (∃ i ∈ ts, ttlBad env c msg i) →
      isErr (iterGo env c msg ts acc) = true := by
  intro ts
  induction ts with
  | nil => intro acc h; simp at h
  | cons i rest ih =>
    intro acc hbad
    by_cases he : c.ttl msg i = ""
    · simp only [iterGo, he, if_true]
      apply ih
      rcases hbad with ⟨t, ht, hb⟩
      rcases List.mem_cons.mp ht with hti | htm
      · subst hti; exact absurd he hb.1
      · exact ⟨t, htm, hb⟩
    · simp only [iterGo, he, if_false]
      cases hp : env.parseDuration (c.ttl msg i) with
      | none => rfl
      | some t =>
        apply ih
        rcases hbad with ⟨t', ht', hb⟩
        rcases List.mem_cons.mp ht' with hti | htm
        · subst hti; rw [hb.2] at hp; cases hp
        · exact ⟨t', htm, hb⟩

/-! ## Helper lemmas for the redis processor -/

theorem keysOp_ok_errMsg (retries : Nat) (cl : RedisClient) (key : String) (part part' : Msg)
    (h : keysOp retries cl key part = .ok part') : part'.errMsg = part.errMsg := by
  unfold keysOp at h
  cases hres : (retryLoop (fun k => cl.keysRes k key) retries).1 with
  | error e => rw [hres] at h; cases h
  | ok res =>
    rw [hres] at h
    injection h with h2
    rw [← h2]

theorem scardOp_ok_errMsg (retries : Nat) (cl : RedisClient) (key : String) (part part' : Msg)
    (h : scardOp retries cl key part = .ok part') : part'.errMsg = part.errMsg := by
  unfold scardOp at h
  cases hres : (retryLoop (fun k => cl.scardRes k key) retries).1 with
  | error e => rw [hres] at h; cases h
  | ok res =>
    rw [hres] at h
    injection h with h2
    rw [← h2]

theorem saddOp_ok_errMsg (env : MsgEnv) (retries : Nat) (cl : RedisClient) (key : String)
    (part part' : Msg) (h : saddOp env retries cl key part = .ok part') :
    part'.errMsg = part.errMsg := by
  unfold saddOp at h
  cases hb : asBytes env part.content with
  | error e => rw [hb] at h; cases h
  | ok mBytes =>
    simp only [hb] at h
    cases hres : (retryLoop (fun k => cl.saddRes k key mBytes) retries).1 with
    | error e => simp only [hres] at h; exact Except.noConfusion h
    | ok res =>
      simp only [hres] at h
      injection h with h2
      rw [← h2]

theorem incrbyOp_ok_errMsg (env : MsgEnv) (retries : Nat) (cl : RedisClient) (key : String)
    (part part' : Msg) (h : incrbyOp env retries cl key part = .ok part') :
    part'.errMsg = part.errMsg := by
  unfold incrbyOp at h
  cases hb : asBytes env part.content with
  | error e => rw [hb] at h; cases h
  | ok mBytes =>
    simp only [hb] at h
    cases ha : goAtoi mBytes with
    | error e => simp only [ha] at h; exact Except.noConfusion h
    | ok valueInt =>
      simp only [ha] at h
      cases hres : (retryLoop (fun k => cl.incrbyRes k key valueInt) retries).1 with
      | error e => simp only [hres] at h; exact Except.noConfusion h
      | ok res =>
        simp only [hres] at h
        injection h with h2
        rw [← h2]

theorem applyOperator_ok_errMsg (env : MsgEnv) (op : OpKind) (retries : Nat) (cl : RedisClient)
    (key : String) (part part' : Msg) (h : applyOperator env op retries cl key part = .ok part') :
    part'.errMsg = part.errMsg := by
  cases op with
  | keys => exact keysOp_ok_errMsg retries cl key part part' h
  | sadd => exact saddOp_ok_errMsg env retries cl key part part' h
  | scard => exact scardOp_ok_errMsg retries cl key part part' h
  | incrby => exact incrbyOp_ok_errMsg env retries cl key part part' h

theorem execRaw_ok_errMsg (env : MsgEnv) (cfg : ProcCfg) (cl : RedisClient) (index : Nat)
    (part part' : Msg) (h : execRaw env cfg cl index part = .ok part') :
    part'.errMsg = part.errMsg := by
  unfold execRaw at h
  cases hq : cfg.argsQuery index with
  | error e => rw [hq] at h; cases h
  | ok resMsg =>
    simp only [hq] at h
    cases hs : asStructured env resMsg.content with
    | error e => simp only [hs] at h; exact Except.noConfusion h
    | ok iargs =>
      simp only [hs] at h
      cases iargs with
      | arr args0 =>
        simp only at h
        cases hres : (retryLoop
            (fun k => cl.doRes k (RStruct.str (cfg.commandInterp index) ::
              args0.map (normNumber cfg.floatOk))) cfg.retries).1 with
        | error e => simp only [hres] at h; exact Except.noConfusion h
        | ok res =>
          simp only [hres] at h
          injection h with h2
          rw [← h2]
      | null => exact Except.noConfusion h
      | str s => exact Except.noConfusion h
      | int n => exact Except.noConfusion h
      | num raw => exact Except.noConfusion h
      | float raw => exact Except.noConfusion h
      | bool b => exact Except.noConfusion h

theorem itemResult_ok_errMsg (env : MsgEnv) (cfg : ProcCfg) (cl : RedisClient) (index : Nat)
    (part part' : Msg) (h : itemResult env cfg cl index part = .ok part') :
    part'.errMsg = part.errMsg := by
  unfold itemResult at h
  cases hop : cfg.operator with
  | some op =>
    simp only [hop] at h
    cases hap : applyOperator env op cfg.retries cl (cfg.keyInterp index) part with
    | error e => simp only [hap] at h; exact Except.noConfusion h
    | ok p'' =>
      simp only [hap] at h
      injection h with h2
      rw [← h2]
      exact applyOperator_ok_errMsg env op cfg.retries cl (cfg.keyInterp index) part p'' hap
  | none =>
    simp only [hop] at h
    exact execRaw_ok_errMsg env cfg cl index part part' h

theorem itemStep_errMsg_of_clean (env : MsgEnv) (cfg : ProcCfg) (cl : RedisClient) (index : Nat)
    (part : Msg) (hclean : part.errMsg = none) :
    (itemStep env cfg cl index part).errMsg.isSome =
      isErr (itemResult env cfg cl index part) := by
  unfold itemStep
  cases hres : itemResult env cfg cl index part with
  | error e => simp
  | ok part' =>
    have := itemResult_ok_errMsg env cfg cl index part part' hres
    simp [this, hclean]

/-! ## Claims about the redis batch processor -/

/-- C3 (code-level behaviour at the failing input): with `retries = 0` and
an operation that fails on every attempt, the retry loop of
`newRedisKeysOperator` / `redisProc.execRaw` invokes the operation twice
and sleeps once, because the loop guard is `i <= r.retries`.  The claim
(and the `retries` field documentation, "The maximum number of retries
before abandoning a request") allows at most `r + 1 = 1` invocation and
`r = 0` sleeps. -/
theorem retry_exceeds_claimed_attempt_bound :
    retryLoop (fun _ => (Except.error "boom" : Except String Int)) 0 =
      (Except.error "boom", 2, 1) := rfl

/-- C4 counterexample: `retries = 1`, the context is cancelled during the
first inter-attempt sleep (modelled by `withCancel`: from the second
attempt on, `DoContext` observes the cancellation and returns the context
error), and the first attempt fails.  The claim predicts that the wrapper
aborts during the sleep with exactly 1 invocation of the operation; the
code invokes the operation 3 times in total, because the sleep is a plain
`<-time.After(r.retryPeriod)` that never consults the context. -/
theorem retry_cancel_counterexample :
    (retryLoop (withCancel (fun k => decide (1 ≤ k))
        (fun _ => (Except.error "boom" : Except String Int))) 1).2.1 = 3 ∧
      (retryLoop (withCancel (fun k => decide (1 ≤ k))
        (fun _ => (Except.error "boom" : Except String Int))) 1).2.1 ≠ 1 := by
  constructor <;> decide

/-- C4 amended: cancellation during the retry delay is not observed by the
retry wrapper.  If the context is cancelled from the first sleep onwards
and the first attempt fails, the wrapper still sleeps through every delay
and re-invokes the operation until the attempt budget is exhausted
(`retries + 2` invocations, `retries + 1` sleeps); a cancellation error is
returned only because the final client call itself reports it. -/
theorem retry_cancel_not_observed {α : Type} (retries : Nat) (cancelled : Nat → Bool)
    (clientRes : Nat → Except String α)
    (hcancel : ∀ k, 1 ≤ k → cancelled k = true)
    (hfail : isErr (clientRes 0) = true) :
    retryLoop (withCancel cancelled clientRes) retries =
      (.error "context canceled", retries + 2, retries + 1) := by
  have hall : ∀ k, isErr (withCancel cancelled clientRes k) = true := by
    intro k
    unfold withCancel
    cases k with
    | zero => cases hc : cancelled 0 <;> simp [hc, hfail]
    | succ n => simp [hcancel (n + 1) (by omega)]
  rw [retryLoop_all_fail _ _ hall]
  unfold withCancel
  simp [hcancel (retries + 1) (by omega)]

theorem retry_cancel_not_observed_witness :
    retryLoop (withCancel (fun k => decide (1 ≤ k))
        (fun _ => (Except.error "boom" : Except String Int))) 1 =
      (.error "context canceled", 3, 2) :=
  retry_cancel_not_observed 1 _ _ (fun _ hk => decide_eq_true hk) (by decide)

/-- C9: `redisProc.ProcessBatch` always returns exactly one output batch of
the same length as the input together with a nil batch-level error, in
both operating modes and for every client behaviour; whenever the
per-item action fails, the failure surfaces as an item error on that
message. -/
theorem redis_processBatch_shape (env : MsgEnv) (cfg : ProcCfg) (cl : RedisClient)
    (b : List Msg) :
    (processBatch env cfg cl b).2 = none ∧
    (processBatch env cfg cl b).1.length = 1 ∧
    ((processBatch env cfg cl b).1.getD 0 []).length = b.length ∧
    (∀ i, i < b.length → isErr (itemResult env cfg cl i (b.getD i dMsg)) = true →
      (((processBatch env cfg cl b).1.getD 0 []).getD i dMsg).errMsg.isSome = true) := by
  refine ⟨rfl, rfl, ?_, ?_⟩
  · simpa [processBatch] using processParts_length env cfg cl b 0
  · intro i hi hfail
    have hget := processParts_getD env cfg cl b 0 i hi
    have hout : ((processBatch env cfg cl b).1.getD 0 []) = processParts env cfg cl 0 b := rfl
    rw [hout, hget]
    simp only [Nat.zero_add]
    unfold itemStep
    cases hres : itemResult env cfg cl i (b.getD i dMsg) with
    | error e => simp
    | ok part' => rw [hres] at hfail; simp [isErr] at hfail

theorem redis_processBatch_shape_witness :
    (processBatch wMsgEnv wCfgCmd wClient wBatch).2 = none ∧
    (processBatch wMsgEnv wCfgCmd wClient wBatch).1.length = 1 ∧
    ((processBatch wMsgEnv wCfgCmd wClient wBatch).1.getD 0 []).length = wBatch.length ∧
    (∀ i, i < wBatch.length →
      isErr (itemResult wMsgEnv wCfgCmd wClient i (wBatch.getD i dMsg)) = true →
      (((processBatch wMsgEnv wCfgCmd wClient wBatch).1.getD 0 []).getD i dMsg).errMsg.isSome
        = true) :=
  redis_processBatch_shape wMsgEnv wCfgCmd wClient wBatch

/-- C1: per-item failure isolation of `redisProc.ProcessBatch`, in both
modes.  On a batch whose messages carry no pre-existing item error, the
returned batch has exactly the input's length, and a message of the output
carries an item error exactly when the per-item action (fixed operator or
generic command) failed for its index; failures at one index never prevent
the processing of the later indices. -/
theorem redis_per_item_isolation (env : MsgEnv) (cfg : ProcCfg) (cl : RedisClient)
    (b : List Msg) (hclean : ∀ m ∈ b, m.errMsg = none) :
    ((processBatch env cfg cl b).1.getD 0 []).length = b.length ∧
    (∀ i, i < b.length →
      ((((processBatch env cfg cl b).1.getD 0 []).getD i dMsg).errMsg.isSome = true ↔
        isErr (itemResult env cfg cl i (b.getD i dMsg)) = true)) := by
  constructor
  · simpa [processBatch] using processParts_length env cfg cl b 0
  · intro i hi
    have hget := processParts_getD env cfg cl b 0 i hi
    have hout : ((processBatch env cfg cl b).1.getD 0 []) = processParts env cfg cl 0 b := rfl
    rw [hout, hget]
    simp only [Nat.zero_add]
    have hmem : b.getD i dMsg ∈ b := by
      rw [List.getD_eq_getElem b dMsg hi]
      exact List.getElem_mem hi
    rw [itemStep_errMsg_of_clean env cfg cl i (b.getD i dMsg) (hclean _ hmem)]

theorem redis_per_item_isolation_witness :
    (∀ m ∈ wBatch, m.errMsg = none) ∧
    (((processBatch wMsgEnv wCfgIncr wClient wBatch).1.getD 0 []).length = wBatch.length ∧
      (∀ i, i < wBatch.length →
        ((((processBatch wMsgEnv wCfgIncr wClient wBatch).1.getD 0 []).getD i dMsg).errMsg.isSome
            = true ↔
          isErr (itemResult wMsgEnv wCfgIncr wClient i (wBatch.getD i dMsg)) = true))) :=
  ⟨by decide, redis_per_item_isolation wMsgEnv wCfgIncr wClient wBatch (by decide)⟩

/-- C5: the dispatch shape of `CacheWriter.WriteWithContext` is decided by
the batch size.  When the target cache exists and every resolved TTL is
empty or parses, a batch of size 1 performs exactly one `Set` with the
key, value and optional TTL of index 0, and a batch of size greater than 1
performs exactly one `SetMulti` with the accumulated key → item map. -/
theorem cache_dispatch_shape (env : CacheEnv) (c : CacheWriter) (msg : List CPart)
    (hcache : env.hasCache c.target = true)
    (httl : ∀ i, i < msg.length → ttlOk env c msg i) :
    (msg.length = 1 →
      (writeWithContext env c msg).1 =
        [.set (c.key msg 0) (msg.getD 0 dPart).content (ttlOf env c msg 0)]) ∧
    (1 < msg.length →
      (writeWithContext env c msg).1 =
        [.setMulti (buildItems env c msg (List.range msg.length) [])]) := by
  constructor
  · intro h1
    unfold writeWithContext
    rw [h1]
    rw [if_neg (by omega : ¬((1 : Nat) > 1)), if_pos hcache]
    by_cases he : c.ttl msg 0 = ""
    · rw [if_pos he]
      simp [ttlOf, he]
    · rcases Option.isSome_iff_exists.mp
        (Or.resolve_left (httl 0 (by omega)) he) with ⟨t, ht⟩
      rw [if_neg he, ht]
      simp [ttlOf, he, ht]
  · intro h2
    unfold writeWithContext writeMulti
    rw [if_pos (by omega : msg.length > 1), if_pos hcache]
    rw [iterGo_ok env c msg _ _ (fun t ht => httl t (List.mem_range.mp ht))]

theorem cache_dispatch_shape_witness :
    wCacheEnv.hasCache wWriterEmpty.target = true ∧
    ((wB2.length = 1 →
      (writeWithContext wCacheEnv wWriterEmpty wB2).1 =
        [.set (wWriterEmpty.key wB2 0) (wB2.getD 0 dPart).content
          (ttlOf wCacheEnv wWriterEmpty wB2 0)]) ∧
    (1 < wB2.length →
      (writeWithContext wCacheEnv wWriterEmpty wB2).1 =
        [.setMulti (buildItems wCacheEnv wWriterEmpty wB2 (List.range wB2.length) [])])) :=
  ⟨by decide, cache_dispatch_shape wCacheEnv wWriterEmpty wB2 (by decide) (by decide)⟩

/-- C6: a single-message batch whose TTL template resolves to the empty
string is dispatched with the TTL parameter absent: exactly one `Set` with
the resolved key, the message payload and a nil TTL, no duration parse
being attempted (the parse branch is only reached on a non-empty resolved
string). -/
theorem cache_single_empty_ttl (env : CacheEnv) (c : CacheWriter) (msg : List CPart)
    (hn : msg.length = 1) (hcache : env.hasCache c.target = true)
    (hempty : c.ttl msg 0 = "") :
    writeWithContext env c msg =
      ([.set (c.key msg 0) (msg.getD 0 dPart).content none],
        env.setRes (c.key msg 0) (msg.getD 0 dPart).content none) := by
  unfold writeWithContext
  rw [hn]
  rw [if_neg (by omega : ¬((1 : Nat) > 1)), if_pos hcache, if_pos hempty]

theorem cache_single_empty_ttl_witness :
    wB1.length = 1 ∧ wCacheEnv.hasCache wWriterEmpty.target = true ∧
    wWriterEmpty.ttl wB1 0 = "" ∧
    writeWithContext wCacheEnv wWriterEmpty wB1 =
      ([.set (wWriterEmpty.key wB1 0) (wB1.getD 0 dPart).content none],
        wCacheEnv.setRes (wWriterEmpty.key wB1 0) (wB1.getD 0 dPart).content none) :=
  ⟨by decide, by decide, by decide,
    cache_single_empty_ttl wCacheEnv wWriterEmpty wB1 (by decide) (by decide) (by decide)⟩

/-- C7: a single-message batch whose TTL string is non-empty and fails
duration parsing produces a failed dispatch and no external write: no
`Set` is performed and the dispatch error is set. -/
theorem cache_single_bad_ttl (env : CacheEnv) (c : CacheWriter) (msg : List CPart)
    (hn : msg.length = 1) (hne : c.ttl msg 0 ≠ "")
    (hbad : env.parseDuration (c.ttl msg 0) = none) :
    (writeWithContext env c msg).1 = [] ∧
      ((writeWithContext env c msg).2).isSome = true := by
  unfold writeWithContext
  rw [hn]
  rw [if_neg (by omega : ¬((1 : Nat) > 1))]
  by_cases hc : env.hasCache c.target = true
  · rw [if_pos hc, if_neg hne, hbad]
    exact ⟨rfl, rfl⟩
  · rw [if_neg hc]
    exact ⟨rfl, rfl⟩

theorem cache_single_bad_ttl_witness :
    wB1bad.length = 1 ∧
    (wWriterBad1.ttl wB1bad 0 = "" → False) ∧
    wCacheEnv.parseDuration (wWriterBad1.ttl wB1bad 0) = none ∧
    ((writeWithContext wCacheEnv wWriterBad1 wB1bad).1 = [] ∧
      ((writeWithContext wCacheEnv wWriterBad1 wB1bad).2).isSome = true) := by
  refine ⟨by decide, by decide, by decide, ?_⟩
  exact cache_single_bad_ttl wCacheEnv wWriterBad1 wB1bad (by decide) (by decide) (by decide)

/-- C2: in the multi-item path (batch size greater than 1), a TTL that is
non-empty and unparsable for any item aborts the whole dispatch inside the
`msg.Iter` closure: the dispatch returns an error and no external cache
call — in particular no `SetMulti` — is performed, and no message is
touched. -/
theorem cache_multi_bad_ttl_aborts (env : CacheEnv) (c : CacheWriter) (msg : List CPart)
    (hn : 1 < msg.length)
    (hbad : ∃ i, i < msg.length ∧ ttlBad env c msg i) :
    (writeWithContext env c msg).1 = [] ∧
      ((writeWithContext env c msg).2).isSome = true := by
  unfold writeWithContext writeMulti
  rw [if_pos (by omega : msg.length > 1)]
  by_cases hc : env.hasCache c.target = true
  · rw [if_pos hc]
    have herr : isErr (iterGo env c msg (List.range msg.length) []) = true := by
      apply iterGo_bad
      rcases hbad with ⟨i, hi, hb⟩
      exact ⟨i, List.mem_range.mpr hi, hb⟩
    cases hres : iterGo env c msg (List.range msg.length) [] with
    | error e => exact ⟨rfl, rfl⟩
    | ok items => rw [hres] at herr; simp [isErr] at herr
  · rw [if_neg hc]
    exact ⟨rfl, rfl⟩

theorem cache_multi_bad_ttl_aborts_witness :
    1 < wB2bad.length ∧
    (1 < wB2bad.length ∧ ttlBad wCacheEnv wWriterBad wB2bad 1) ∧
    ((writeWithContext wCacheEnv wWriterBad wB2bad).1 = [] ∧
      ((writeWithContext wCacheEnv wWriterBad wB2bad).2).isSome = true) := by
  refine ⟨by decide, ⟨by decide, by decide⟩, ?_⟩
  exact cache_multi_bad_ttl_aborts wCacheEnv wWriterBad wB2bad (by decide)
    ⟨1, by decide, by decide⟩

/-- C10: in the multi-item path, items are accumulated into a map keyed by
the resolved key before the single `SetMulti` call, so when an earlier and
a later index resolve to the same key the later entry overwrites the
earlier one (the map holds the later index's value and TTL under that key)
and `SetMulti` receives strictly fewer entries than the batch length. -/
theorem cache_multi_duplicate_key (env : CacheEnv) (c : CacheWriter) (msg : List CPart)
    (i j : Nat) (hcache : env.hasCache c.target = true)
    (hij : i < j) (hj : j < msg.length)
    (hkey : c.key msg i = c.key msg j)
    (hlast : ∀ t, j < t → t < msg.length → c.key msg t ≠ c.key msg j)
    (httl : ∀ t, t < msg.length → ttlOk env c msg t) :
    ∃ items,
      (writeMulti env c msg).1 = [.setMulti items] ∧
      items.length < msg.length ∧
      lookupItem (c.key msg i) items =
        some ⟨(msg.getD j dPart).content, ttlOf env c msg j⟩ := by
  refine ⟨buildItems env c msg (List.range msg.length) [], ?_, ?_, ?_⟩
  · unfold writeMulti
    rw [iterGo_ok env c msg _ _ (fun t ht => httl t (List.mem_range.mp ht))]
    rw [if_pos hcache]
  · exact buildItems_range_len_lt env c msg i j hij hkey msg.length hj
  · rw [hkey]
    exact buildItems_range_lookup_last env c msg j msg.length hj hlast

theorem cache_multi_duplicate_key_witness :
    wCacheEnv.hasCache wWriterDup.target = true ∧
    (0 : Nat) < 1 ∧ 1 < wB2.length ∧
    wWriterDup.key wB2 0 = wWriterDup.key wB2 1 ∧
    (∃ items,
      (writeMulti wCacheEnv wWriterDup wB2).1 = [.setMulti items] ∧
      items.length < wB2.length ∧
      lookupItem (wWriterDup.key wB2 0) items =
        some ⟨(wB2.getD 1 dPart).content, ttlOf wCacheEnv wWriterDup wB2 1⟩) :=
  ⟨by decide, by decide, by decide, by decide,
    cache_multi_duplicate_key wCacheEnv wWriterDup wB2 0 1 (by decide) (by decide)
      (by decide) (by decide)
      (by
        intro t ht htl
        exfalso
        have h2 : wB2.length = 2 := rfl
        omega)
      (by decide)⟩

/-- C8: `NewCacheWriter` fails exactly when the key template fails to
compile, the ttl template fails to compile, or the target cache resource
is not found by the registry probe; and on success each of the two
templates has been handed to the expression compiler exactly once, in
order. -/
theorem cache_writer_construction (env : ConstructEnv) (conf : CacheConfig) :
    (isErr (newCacheWriter env conf).1 =
      (isErr (env.newField conf.keyStr) || isErr (env.newField conf.ttlStr) ||
        !env.probeCache conf.target)) ∧
    (isErr (newCacheWriter env conf).1 = false →
      (newCacheWriter env conf).2 = [conf.keyStr, conf.ttlStr]) := by
  unfold newCacheWriter
  cases hk : env.newField conf.keyStr with
  | error e => simp
  | ok key =>
    cases ht : env.newField conf.ttlStr with
    | error e => simp
    | ok ttl =>
      cases hp : env.probeCache conf.target <;> simp [hp]

theorem cache_writer_construction_witness :
    (isErr (newCacheWriter wConsEnv wConsConf).1 =
      (isErr (wConsEnv.newField wConsConf.keyStr) || isErr (wConsEnv.newField wConsConf.ttlStr) ||
        !wConsEnv.probeCache wConsConf.target)) ∧
    (isErr (newCacheWriter wConsEnv wConsConf).1 = false →
      (newCacheWriter wConsEnv wConsConf).2 = [wConsConf.keyStr, wConsConf.ttlStr]) :=
  cache_writer_construction wConsEnv wConsConf

end BenthosModel
